import Mathlib

/-!
# Verification of the Go rules engine and AI layer

A shallow embedding of the Go (Weiqi/Baduk) rules engine of this
repository (`game/core.py`, `game/utils.py`) and of its minimax AI layer
(`player/ai.py`), together with theorems settling the specification
claims about them.

Modelling conventions:
* the numpy `size × size` int array backing the board becomes a
  `List (List Nat)` read through `getCell` (out-of-range reads default
  to `EMPTY`, matching the fact that the live array is always
  `size × size`);
* Python coordinates are `Int` (they may be negative before the
  `_on_board` bounds check);
* the in-place mutation of `self.board` becomes explicit state passing:
  each mutating method returns the board/game value it leaves behind;
* the `assert color != self.EMPTY` in `_chain_and_liberties` is a
  failure path, so the methods that can reach it return `Option`
  results, `none` standing for the propagated `AssertionError`;
* BFS worklist loops take an explicit fuel argument
  (`bfsFuel size = 4 * size * size + 1`, an upper bound on the number
  of queue pops the Python loop can perform).
-/

/-- Stone colours, as the `int` constants of `Goban`. -/
abbrev Cell := Nat

/-- `Goban.EMPTY`. -/
def EMPTY : Cell := 0

/-- `Goban.BLACK`. -/
def BLACK : Cell := 1

/-- `Goban.WHITE`. -/
def WHITE : Cell := 2

/-- The board grid: the `size × size` numpy int array, row major. -/
abbrev BoardGrid := List (List Cell)

/-- Read `board[x, y]`; out-of-range reads default to `EMPTY` (the live
array is always `size × size`, so defaults never matter for in-bounds
access on a well-formed board). -/
def getCell (b : BoardGrid) (x y : Int) : Cell :=
  (b.getD x.toNat []).getD y.toNat EMPTY

/-- Write `board[x, y] = c` (no-op out of range, like `List.set`). -/
def setCell (b : BoardGrid) (x y : Int) (c : Cell) : BoardGrid :=
  b.set x.toNat ((b.getD x.toNat []).set y.toNat c)

/-- `Goban._on_board`: `0 <= x < self.size and 0 <= y < self.size`. -/
def on_board (size : Nat) (x y : Int) : Bool :=
  0 ≤ x && x < size && 0 ≤ y && y < size

/-- `Goban._neighbours`: the in-bounds orthogonal neighbours of `(x, y)`,
in the order generated by the Python `for dx, dy in ((1,0),(-1,0),(0,1),(0,-1))`. -/
def neighbours (size : Nat) (x y : Int) : List (Int × Int) :=
  [(x + 1, y), (x - 1, y), (x, y + 1), (x, y - 1)].filter
    (fun p => on_board size p.1 p.2)

/-- `Goban.opponent`: `BLACK if color == WHITE else WHITE`. -/
def opponent (color : Cell) : Cell :=
  if color == WHITE then BLACK else WHITE

/-- Fuel bound for the BFS worklist loops: the Python loops pop at most
`1 + 4 * size²` queue entries (one initial entry plus at most four
enqueues per visited cell). -/
def bfsFuel (size : Nat) : Nat := 4 * size * size + 1

/-- The BFS worklist loop of `Goban._chain_and_liberties`: FIFO queue,
`visited`/`chain` accumulated without duplicates, `liberties` as the
empty neighbours seen so far. -/
def chainBfs (size : Nat) (b : BoardGrid) (color : Cell) :
    Nat → List (Int × Int) → List (Int × Int) → List (Int × Int) →
    List (Int × Int) → List (Int × Int) × List (Int × Int)
  | 0, _, _, chain, libs => (chain, libs)
  | _ + 1, [], _, chain, libs => (chain, libs)
  | fuel + 1, c :: rest, visited, chain, libs =>
    if c ∈ visited then
      chainBfs size b color fuel rest visited chain libs
    else
      let visited' := c :: visited
      let ns := neighbours size c.1 c.2
      let libs' := libs ++ ns.filter (fun p => getCell b p.1 p.2 == EMPTY)
      let enq := ns.filter
        (fun p => getCell b p.1 p.2 == color && decide (p ∉ visited'))
      chainBfs size b color fuel (rest ++ enq) visited' (chain ++ [c]) libs'

/-- The chain/liberty flood fill of `Goban._chain_and_liberties`, without
its leading assertion (the colour swept is read from the board, exactly
as `color = self.board[x, y]` does). -/
def chain_and_libertiesT (size : Nat) (b : BoardGrid) (x y : Int) :
    List (Int × Int) × List (Int × Int) :=
  chainBfs size b (getCell b x y) (bfsFuel size) [(x, y)] [] [] []

/-- `Goban._chain_and_liberties`, including the
`assert color != self.EMPTY` failure path (`none` = `AssertionError`). -/
def chain_and_liberties (size : Nat) (b : BoardGrid) (x y : Int) :
    Option (List (Int × Int) × List (Int × Int)) :=
  if getCell b x y == EMPTY then none
  else some (chain_and_libertiesT size b x y)

/-- `Goban._remove_chain`: clear every stone of the chain. -/
def remove_chain (b : BoardGrid) (chain : List (Int × Int)) : BoardGrid :=
  chain.foldl (fun acc p => setCell acc p.1 p.2 EMPTY) b

/-- The Go board: grid plus the history of board snapshots kept for the
ko rule (`self.states`). -/
structure Goban where
  size : Nat
  board : BoardGrid
  states : List BoardGrid
deriving DecidableEq

/-- `np.zeros((size, size))`. -/
def emptyGrid (size : Nat) : BoardGrid :=
  List.replicate size (List.replicate size EMPTY)

/-- `Goban.__init__`: empty grid, history seeded with its copy. -/
def newGoban (size : Nat) : Goban :=
  { size := size, board := emptyGrid size, states := [emptyGrid size] }

/-- The capture sweep shared by `possible_move` and `play_move`: for
each in-bounds neighbour of the placed stone, in order, if it holds an
opponent stone whose chain has no liberties, remove that chain.  The
`_chain_and_liberties` assertion cannot fire here: the scanned cell's
colour equals `opponent color ∈ {BLACK, WHITE}`, never `EMPTY`. -/
def captureLoop (size : Nat) (opp : Cell) :
    List (Int × Int) → BoardGrid → Bool → BoardGrid × Bool
  | [], b, cap => (b, cap)
  | p :: rest, b, cap =>
    if getCell b p.1 p.2 == opp then
      let cl := chain_and_libertiesT size b p.1 p.2
      if cl.2.isEmpty then
        captureLoop size opp rest (remove_chain b cl.1) true
      else
        captureLoop size opp rest b cap
    else
      captureLoop size opp rest b cap

/-- Tentatively place `color` at `(x, y)` and run the capture sweep over
the neighbours of `(x, y)`; returns the resulting grid and the
`captured_any` flag. -/
def simulateCapture (g : Goban) (x y : Int) (color : Cell) :
    BoardGrid × Bool :=
  captureLoop g.size (opponent color) (neighbours g.size x y)
    (setCell g.board x y color) false

/-- Row-major list of all board coordinates, as the Python double loop
`for x in range(size): for y in range(size)` enumerates them. -/
def allCells (size : Nat) : List (Int × Int) :=
  (List.range size).flatMap
    (fun x => (List.range size).map (fun y => (Int.ofNat x, Int.ofNat y)))

/-- `np.array_equal` on two `size × size` grids: cellwise equality. -/
def arrayEqual (size : Nat) (b1 b2 : BoardGrid) : Bool :=
  (allCells size).all (fun p => getCell b1 p.1 p.2 == getCell b2 p.1 p.2)

/-- `Goban.possible_move`: simulate-then-revert legality check.  The
first component is the returned boolean (`none` when the simulation
hits the `_chain_and_liberties` assertion), the second is the grid the
method leaves behind (`self.board` on return or at the raise point). -/
def possible_move (g : Goban) (x y : Int) (color : Cell) :
    Option Bool × BoardGrid :=
  if !on_board g.size x y then (some false, g.board)
  else if !(getCell g.board x y == EMPTY) then (some false, g.board)
  else
    let pr := simulateCapture g x y color
    match chain_and_liberties g.size pr.1 x y with
    | none => (none, pr.1)
    | some cl =>
      let legal := !cl.2.isEmpty || pr.2
      let legal2 :=
        if legal && decide (2 ≤ g.states.length) then
          if arrayEqual g.size pr.1 (g.states.getD (g.states.length - 2) [])
          then false else legal
        else legal
      (some legal2, g.board)

/-- `Goban.play_move`: re-validate via `possible_move`, then place the
stone, remove the captured chains and append the new grid to the
history.  `none` propagates the assertion failure (with the grid the
simulation left behind). -/
def play_move (g : Goban) (x y : Int) (color : Cell) :
    Option (Bool × Bool) × Goban :=
  let r := possible_move g x y color
  let g1 : Goban := { g with board := r.2 }
  match r.1 with
  | none => (none, g1)
  | some false => (some (false, false), g1)
  | some true =>
    let pr := simulateCapture g1 x y color
    (some (true, pr.2), { g1 with board := pr.1, states := g1.states ++ [pr.1] })

/-- The territory flood fill inside `Goban._calc_territories`: FIFO
queue over empty cells, collecting the territory, the set of distinct
bordering stone colours, and updating the shared `visited` set. -/
def territoryBfs (size : Nat) (b : BoardGrid) :
    Nat → List (Int × Int) → List (Int × Int) → List (Int × Int) →
    List Cell → List (Int × Int) × List Cell × List (Int × Int)
  | 0, _, visited, terr, borders => (terr, borders, visited)
  | _ + 1, [], visited, terr, borders => (terr, borders, visited)
  | fuel + 1, c :: rest, visited, terr, borders =>
    if c ∈ visited then
      territoryBfs size b fuel rest visited terr borders
    else
      let visited' := c :: visited
      let ns := neighbours size c.1 c.2
      let enq := ns.filter
        (fun p => getCell b p.1 p.2 == EMPTY && decide (p ∉ visited'))
      let borders' := (ns.filter (fun p => !(getCell b p.1 p.2 == EMPTY))).foldl
        (fun bs p => if getCell b p.1 p.2 ∈ bs then bs
                     else bs ++ [getCell b p.1 p.2]) borders
      territoryBfs size b fuel (rest ++ enq) visited' (terr ++ [c]) borders'

/-- The outer double loop of `Goban._calc_territories`, threading the
shared `visited` set and the per-colour lists of assigned territories
(black first, white second).  A territory is kept only when its border
colour set is a singleton; `territories` has keys `BLACK` and `WHITE`
only, so singleton border colours other than these assign nothing (for
a grid of genuine colours this case never arises). -/
def terrLoop (size : Nat) (b : BoardGrid) :
    List (Int × Int) → List (Int × Int) → List (List (Int × Int)) →
    List (List (Int × Int)) →
    List (List (Int × Int)) × List (List (Int × Int))
  | [], _, tb, tw => (tb, tw)
  | c :: rest, visited, tb, tw =>
    if !(getCell b c.1 c.2 == EMPTY) || c ∈ visited then
      terrLoop size b rest visited tb tw
    else
      let r := territoryBfs size b (bfsFuel size) [c] visited [] []
      match r.2.1 with
      | [col] =>
        if col == BLACK then terrLoop size b rest r.2.2 (tb ++ [r.1]) tw
        else if col == WHITE then terrLoop size b rest r.2.2 tb (tw ++ [r.1])
        else terrLoop size b rest r.2.2 tb tw
      | _ => terrLoop size b rest r.2.2 tb tw

/-- `Goban._calc_territories`. -/
def calc_territories (g : Goban) :
    List (List (Int × Int)) × List (List (Int × Int)) :=
  terrLoop g.size g.board (allCells g.size) [] [] []

/-- `np.sum(self.board == c)`: the number of board cells holding `c`. -/
def countColor (size : Nat) (b : BoardGrid) (c : Cell) : Nat :=
  ((allCells size).filter (fun p => getCell b p.1 p.2 == c)).length

/-- `Goban.score` (Chinese rules): stones on the board plus owned
territory cells, as the pair (black score, white score). -/
def score (g : Goban) : Nat × Nat :=
  let t := calc_territories g
  (countColor g.size g.board BLACK + (t.1.map List.length).sum,
   countColor g.size g.board WHITE + (t.2.map List.length).sum)

/-- Look up the score dict at a colour (`score[BLACK]` / `score[WHITE]`;
the callers only ever use these two keys). -/
def scoreGet (s : Nat × Nat) (c : Cell) : Nat :=
  if c == BLACK then s.1 else s.2

/-- The game state managed by `GoGame`. -/
structure GoGame where
  goban : Goban
  current_color : Cell
  black_passed : Bool
  white_passed : Bool
  nbr_moves : Nat
  singleplayer : Bool
deriving DecidableEq

/-- `GoGame.__init__`. -/
def newGame (size : Nat) : GoGame :=
  { goban := newGoban size, current_color := BLACK, black_passed := false,
    white_passed := false, nbr_moves := 0, singleplayer := false }

/-- `GoGame.switch_player`: `WHITE if current == BLACK else BLACK`. -/
def switch_player (g : GoGame) : GoGame :=
  { g with current_color := if g.current_color == BLACK then WHITE else BLACK }

/-- `GoGame.take_move`: play for the current colour; on success bump the
move counter, clear both pass flags and switch players; on failure
return `(False, False)` with the state untouched.  `none` propagates
the simulation assertion (leaving behind the grid it produced). -/
def take_move (g : GoGame) (x y : Int) : Option (Bool × Bool) × GoGame :=
  let r := play_move g.goban x y g.current_color
  match r.1 with
  | none => (none, { g with goban := r.2 })
  | some (true, cap) =>
    (some (true, cap),
      switch_player { g with goban := r.2, nbr_moves := g.nbr_moves + 1,
                             black_passed := false, white_passed := false })
  | some (false, _) => (some (false, false), { g with goban := r.2 })

/-- `GoGame.pass_move`: set the active colour's pass flag, bump the move
counter and switch players. -/
def pass_move (g : GoGame) : GoGame :=
  let g' := if g.current_color == BLACK then { g with black_passed := true }
            else { g with white_passed := true }
  switch_player { g' with nbr_moves := g'.nbr_moves + 1 }

/-- `GoGame.game_over`: both players passed. -/
def game_over (g : GoGame) : Bool :=
  g.black_passed && g.white_passed

/-- `GoGame.get_score`. -/
def get_score (g : GoGame) : Nat × Nat := score g.goban

/-- The serialization snapshot produced by `game_to_dict`
(`game/utils.py`). -/
structure GameDict where
  size : Nat
  board : BoardGrid
  current_color : Cell
  black_passed : Bool
  white_passed : Bool
  nbr_moves : Nat
  states : List BoardGrid
  singleplayer : Bool
deriving DecidableEq

/-- `game_to_dict`. -/
def game_to_dict (g : GoGame) : GameDict :=
  { size := g.goban.size, board := g.goban.board,
    current_color := g.current_color, black_passed := g.black_passed,
    white_passed := g.white_passed, nbr_moves := g.nbr_moves,
    states := g.goban.states, singleplayer := g.singleplayer }

/-- `game_from_dict`: build a fresh game of the stored size and
overwrite every serialized field. -/
def game_from_dict (d : GameDict) : GoGame :=
  { goban := { size := d.size, board := d.board, states := d.states },
    current_color := d.current_color, black_passed := d.black_passed,
    white_passed := d.white_passed, nbr_moves := d.nbr_moves,
    singleplayer := d.singleplayer }

/-- `np.argwhere(self.game.goban.board == Goban.EMPTY)`: the empty
cells in row-major order. -/
def emptyPositions (g : GoGame) : List (Int × Int) :=
  (allCells g.goban.size).filter
    (fun p => getCell g.goban.board p.1 p.2 == EMPTY)

/-- Python float values appearing in the minimax search: the integer
score differences together with `-float("inf")` and `float("inf")`. -/
inductive Val where
  | negInf : Val
  | fin : Int → Val
  | posInf : Val
deriving DecidableEq

/-- `<=` on search values. -/
def Val.le : Val → Val → Bool
  | .negInf, _ => true
  | _, .posInf => true
  | .fin a, .fin b => a ≤ b
  | .posInf, _ => false
  | _, .negInf => false

/-- `<` on search values. -/
def Val.lt (a b : Val) : Bool := !Val.le b a

/-- Python `max(a, b)` (returns the first argument on ties). -/
def Val.max (a b : Val) : Val := if Val.le b a then a else b

/-- Python `min(a, b)` (returns the first argument on ties). -/
def Val.min (a b : Val) : Val := if Val.le a b then a else b

/-- The colour the AI plays against
(`Goban.BLACK if color == Goban.WHITE else Goban.WHITE`). -/
def oppColor (color : Cell) : Cell :=
  if color == WHITE then BLACK else WHITE

/-- The leaf evaluation of `look_ahead` at depth 0:
`score[color] - score[opponent_color]`. -/
def evalScore (color : Cell) (g : GoGame) : Int :=
  (scoreGet (get_score g) color : Int) -
    (scoreGet (get_score g) (oppColor color) : Int)

/-- Whether `temp_game.take_move(x, y)` on a copy of `game` accepts the
move (an assertion failure counts as not accepted; it cannot occur for
the colours a real game plays). -/
def moveAccepted (game : GoGame) (p : Int × Int) : Bool :=
  match (take_move game p.1 p.2).1 with
  | some (true, _) => true
  | _ => false

/-- The maximizing branch of `look_ahead`: iterate the candidate
positions, skipping illegal ones, recursing through `step` (the
depth-decremented `look_ahead`), tracking `max_eval`/`alpha`, and
breaking as soon as `beta <= alpha`. -/
def maxLoop (step : GoGame → Val → Val → Val) (game : GoGame) :
    List (Int × Int) → Val → Val → Val → Val
  | [], _, _, best => best
  | p :: rest, alpha, beta, best =>
    if moveAccepted game p then
      let e := step (take_move game p.1 p.2).2 alpha beta
      let best' := Val.max best e
      let alpha' := Val.max alpha e
      if Val.le beta alpha' then best'
      else maxLoop step game rest alpha' beta best'
    else maxLoop step game rest alpha beta best

/-- The minimizing branch of `look_ahead`, symmetric to `maxLoop`. -/
def minLoop (step : GoGame → Val → Val → Val) (game : GoGame) :
    List (Int × Int) → Val → Val → Val → Val
  | [], _, _, best => best
  | p :: rest, alpha, beta, best =>
    if moveAccepted game p then
      let e := step (take_move game p.1 p.2).2 alpha beta
      let best' := Val.min best e
      let beta' := Val.min beta e
      if Val.le beta' alpha then best'
      else minLoop step game rest alpha beta' best'
    else minLoop step game rest alpha beta best

/-- `look_ahead` of `_true_ai_choose_move`: alpha-beta minimax.  Depth 0
is the evaluation leaf; a maximizing level folds `maxLoop` over the
empty positions starting from `-inf`, a minimizing level folds
`minLoop` starting from `inf`. -/
def look_ahead (color : Cell) : Nat → GoGame → Bool → Val → Val → Val
  | 0, game, _, _, _ => Val.fin (evalScore color game)
  | depth + 1, game, maximizing, alpha, beta =>
    if maximizing then
      maxLoop (fun g a b => look_ahead color depth g false a b) game
        (emptyPositions game) alpha beta Val.negInf
    else
      minLoop (fun g a b => look_ahead color depth g true a b) game
        (emptyPositions game) alpha beta Val.posInf

/-- The evaluation `_true_ai_choose_move` computes for a legal candidate
move: `look_ahead(temp_game, nbr_moves, False, -inf, inf)` on the state
reached by playing the candidate, where `nbr_moves` is the configured
ply depth. -/
def candidateEval (game : GoGame) (color : Cell) (depth : Nat)
    (p : Int × Int) : Val :=
  look_ahead color depth (take_move game p.1 p.2).2 false Val.negInf Val.posInf

/-- The candidate loop of `_true_ai_choose_move`: track `best_score`
and the list `best_move` of all moves achieving it (strictly better
score restarts the list, an equal score appends when the list already
exists). -/
def bestLoop (game : GoGame) (color : Cell) (depth : Nat) :
    List (Int × Int) → Val → Option (List (Int × Int)) →
    Val × Option (List (Int × Int))
  | [], best, bm => (best, bm)
  | p :: rest, best, bm =>
    if moveAccepted game p then
      let s := candidateEval game color depth p
      if Val.lt best s then bestLoop game color depth rest s (some [p])
      else if s == best && !(bm == none) then
        bestLoop game color depth rest best (bm.map (fun l => l ++ [p]))
      else bestLoop game color depth rest best bm
    else bestLoop game color depth rest best bm

/-- `best_score` and `best_move` after the candidate loop of
`_true_ai_choose_move` (the returned move is then drawn uniformly from
the `best_move` list, subject to the heuristic pass rule). -/
def trueAiBest (game : GoGame) (color : Cell) (depth : Nat) :
    Val × Option (List (Int × Int)) :=
  bestLoop game color depth (emptyPositions game) Val.negInf none

/-- The ply depth `compute_ai_move` passes to `_true_ai_choose_move`
for each lookahead AI kind ("Leo" → 2, "Magnus" → 4, default 2);
`Leo.choose_move` and `Magnus.choose_move` use the same constants. -/
def aiKindDepth (kind : String) : Nat :=
  if kind == "Leo" then 2 else if kind == "Magnus" then 4 else 2

/-- Modelled from the spec: the candidate evaluation the specification
describes — "run alpha-beta minimax to depth D-1 from the opponent's
perspective" — which differs from the source's `candidateEval` by using
depth `D - 1` instead of `D`. -/
def specCandidateEval (game : GoGame) (color : Cell) (configuredDepth : Nat)
    (p : Int × Int) : Val :=
  look_ahead color (configuredDepth - 1) (take_move game p.1 p.2).2 false
    Val.negInf Val.posInf

/-- A caller action on the live game: a stone placement attempt or a
pass. -/
inductive GameAction where
  | move : Int → Int → GameAction
  | pass : GameAction
deriving DecidableEq

/-- Run a sequence of `take_move` / `pass_move` calls. -/
def runGame (g : GoGame) : List GameAction → GoGame
  | [] => g
  | GameAction.move x y :: rest => runGame (take_move g x y).2 rest
  | GameAction.pass :: rest => runGame (pass_move g) rest

/-- The number of accepted stone placements along a call sequence. -/
def acceptedCount (g : GoGame) : List GameAction → Nat
  | [] => 0
  | GameAction.move x y :: rest =>
    (if moveAccepted g (x, y) then 1 else 0) +
      acceptedCount (take_move g x y).2 rest
  | GameAction.pass :: rest => acceptedCount (pass_move g) rest

/-- Well-formed board: the grid really is `size × size`, as every grid
the Python program constructs is. -/
def WF (g : Goban) : Prop :=
  g.board.length = g.size ∧ ∀ row ∈ g.board, row.length = g.size

instance (g : Goban) : Decidable (WF g) := by
  unfold WF; infer_instance

/-- The simple-ko violation condition of `possible_move`: at least two
stored snapshots, and the simulated grid equals the snapshot from two
plies ago. -/
def koViolation (g : Goban) (x y : Int) (color : Cell) : Prop :=
  2 ≤ g.states.length ∧
    arrayEqual g.size (simulateCapture g x y color).1
      (g.states.getD (g.states.length - 2) []) = true

instance (g : Goban) (x y : Int) (color : Cell) :
    Decidable (koViolation g x y color) := by
  unfold koViolation; infer_instance

/-! ## Concrete scenarios used by witnesses and counterexamples -/

/-- Play a move and keep only the resulting board (scenario builder). -/
def pmv (g : Goban) (x y : Int) (c : Cell) : Goban := (play_move g x y c).2

/-- The classic single-stone ko position on a 4×4 board, reached by the
move sequence B(0,1) W(0,2) B(1,0) W(1,3) B(2,1) W(2,2) B(3,0) W(1,1)
B(1,2): the last move captures the white stone at (1,1). -/
def gKo : Goban :=
  pmv (pmv (pmv (pmv (pmv (pmv (pmv (pmv (pmv (newGoban 4)
    0 1 BLACK) 0 2 WHITE) 1 0 BLACK) 1 3 WHITE) 2 1 BLACK)
    2 2 WHITE) 3 0 BLACK) 1 1 WHITE) 1 2 BLACK

/-- The ko position after one intervening white move at (3, 3). -/
def gKo2 : Goban := pmv gKo 3 3 WHITE

/-- A 3×3 board with White at (0,1), (1,0) and (1,2): Black at (0,0) is
a suicide (no liberty, no capture). -/
def gSuicide : Goban :=
  { size := 3, board := [[0, 2, 0], [2, 0, 2], [0, 0, 0]],
    states := [[[0, 2, 0], [2, 0, 2], [0, 0, 0]]] }

/-- A finished game: both players passed in succession. -/
def gOver : GoGame := pass_move (pass_move (newGame 2))

/-- A 2×2 board holding one black stone, whose empty cells form one
black territory. -/
def gScore : Goban :=
  { size := 2, board := [[1, 0], [0, 0]], states := [[[1, 0], [0, 0]]] }

/-! ## List helper lemmas -/

/-- Writing back the value a list already holds is the identity. -/
theorem set_getD_self {α : Type} (l : List α) (d : α) :
    ∀ n : Nat, l.set n (l.getD n d) = l := by
  induction l with
  | nil => intro n; rfl
  | cons a t ih =>
    intro n
    cases n with
    | zero => rfl
    | succ m => simpa [List.set, List.getD] using ih m

/-- `getD` after `set` at a different index is unchanged. -/
theorem getD_set_ne {α : Type} (l : List α) (a d : α) :
    ∀ m n : Nat, m ≠ n → (l.set m a).getD n d = l.getD n d := by
  induction l with
  | nil => intro m n _; rfl
  | cons b t ih =>
    intro m n hmn
    cases m with
    | zero =>
      cases n with
      | zero => exact absurd rfl hmn
      | succ k => rfl
    | succ j =>
      cases n with
      | zero => rfl
      | succ k => simpa [List.set, List.getD] using ih j k (by omega)

/-- `getD` after `set` at the same index yields the written value when
the index is in range, and the default otherwise. -/
theorem getD_set_self {α : Type} (l : List α) (a d : α) :
    ∀ n : Nat, (l.set n a).getD n d = if n < l.length then a else d := by
  induction l with
  | nil => intro n; simp [List.getD]
  | cons b t ih =>
    intro n
    cases n with
    | zero => simp [List.set, List.getD]
    | succ m => simpa [List.set, List.getD, Nat.succ_lt_succ_iff] using ih m

/-- `getD` out of range yields the default. -/
theorem getD_of_length_le {α : Type} (l : List α) (d : α) :
    ∀ n : Nat, l.length ≤ n → l.getD n d = d := by
  induction l with
  | nil => intro n _; rfl
  | cons b t ih =>
    intro n hn
    cases n with
    | zero => simp at hn
    | succ m => simpa [List.getD] using ih m (by simpa using hn)

/-! ## Cell access lemmas -/

/-- `getCell` depends only on the `toNat` images of the coordinates. -/
theorem getCell_congr_toNat (b : BoardGrid) {x y u v : Int}
    (hx : x.toNat = u.toNat) (hy : y.toNat = v.toNat) :
    getCell b x y = getCell b u v := by
  simp [getCell, hx, hy]

/-- Writing a cell either leaves the grid unchanged (out-of-range
write) or makes the written cell read back the written value. -/
theorem setCell_cases (b : BoardGrid) (x y : Int) (c : Cell) :
    setCell b x y c = b ∨ getCell (setCell b x y c) x y = c := by
  by_cases hx : x.toNat < b.length
  · by_cases hy : y.toNat < (b.getD x.toNat []).length
    · right
      simp only [getCell, setCell]
      rw [getD_set_self b _ [] x.toNat, if_pos hx, getD_set_self _ _ _ y.toNat,
        if_pos hy]
    · left
      simp only [setCell]
      rw [@List.set_eq_of_length_le _ (b.getD x.toNat []) y.toNat (by omega) c,
        set_getD_self]
  · left
    simp only [setCell]
    exact List.set_eq_of_length_le (by omega)

/-- Writing back the value a cell already holds is the identity. -/
theorem setCell_self (b : BoardGrid) (x y : Int) :
    setCell b x y (getCell b x y) = b := by
  simp only [setCell, getCell]
  rw [set_getD_self, set_getD_self]

/-- Reading the cell just written yields the written value or, for an
out-of-range write, the original value. -/
theorem getCell_setCell_self (b : BoardGrid) (x y : Int) (c : Cell) :
    getCell (setCell b x y c) x y = c ∨
      getCell (setCell b x y c) x y = getCell b x y := by
  rcases setCell_cases b x y c with h | h
  · right; rw [h]
  · left; exact h

/-- Writes at a `toNat`-distinct cell do not change a read. -/
theorem getCell_setCell_ne (b : BoardGrid) {x y u v : Int} (c : Cell)
    (h : u.toNat ≠ x.toNat ∨ v.toNat ≠ y.toNat) :
    getCell (setCell b u v c) x y = getCell b x y := by
  rcases h with h | h
  · simp only [getCell, setCell]
    rw [getD_set_ne b _ [] u.toNat x.toNat h]
  · by_cases hx : u.toNat = x.toNat
    · simp only [getCell, setCell, hx]
      rw [getD_set_self]
      split
      · rw [getD_set_ne _ _ _ v.toNat y.toNat h]
      · rw [getD_of_length_le _ _ x.toNat (by omega)]
    · simp only [getCell, setCell]
      rw [getD_set_ne b _ [] u.toNat x.toNat hx]

/-! ## Neighbour lemmas -/

/-- Every generated neighbour is on the board. -/
theorem mem_neighbours_on_board {size : Nat} {x y : Int} {q : Int × Int}
    (h : q ∈ neighbours size x y) : on_board size q.1 q.2 = true := by
  simp only [neighbours, List.mem_filter] at h
  exact h.2

/-- Neighbourhood is symmetric between on-board cells. -/
theorem neighbours_symm {size : Nat} {x y : Int} {q : Int × Int}
    (hxy : on_board size x y = true) (h : q ∈ neighbours size x y) :
    (x, y) ∈ neighbours size q.1 q.2 := by
  simp only [neighbours, List.mem_filter, List.mem_cons,
    List.not_mem_nil, or_false] at h ⊢
  refine ⟨?_, hxy⟩
  obtain ⟨hq, _⟩ := h
  rcases hq with h | h | h | h <;> subst h <;> simp

/-- An on-board cell and some other cell with a different `getCell`
value differ in at least one `toNat` coordinate. -/
theorem toNat_ne_of_getCell_ne {b : BoardGrid} {x y u v : Int}
    (h : getCell b u v ≠ getCell b x y) :
    u.toNat ≠ x.toNat ∨ v.toNat ≠ y.toNat := by
  by_contra hc
  push_neg at hc
  exact h (getCell_congr_toNat b hc.1 hc.2)

/-! ## Chain BFS invariants -/

/-- Liberties already collected survive the rest of the BFS. -/
theorem chainBfs_libs_mono (size : Nat) (b : BoardGrid) (color : Cell) :
    ∀ (fuel : Nat) (queue visited chain libs : List (Int × Int)),
      ∀ p ∈ libs, p ∈ (chainBfs size b color fuel queue visited chain libs).2 := by
  intro fuel
  induction fuel with
  | zero => intro queue visited chain libs p hp; simpa [chainBfs] using hp
  | succ n ih =>
    intro queue visited chain libs p hp
    cases queue with
    | nil => simpa [chainBfs] using hp
    | cons c rest =>
      by_cases hv : c ∈ visited
      · rw [chainBfs, if_pos hv]; exact ih _ _ _ _ p hp
      · rw [chainBfs, if_neg hv]
        exact ih _ _ _ _ p (by simp [hp])

/-- Every cell the BFS puts into the chain holds the swept colour,
provided the queue starts that way. -/
theorem chainBfs_chain_color (size : Nat) (b : BoardGrid) (color : Cell) :
    ∀ (fuel : Nat) (queue visited chain libs : List (Int × Int)),
      (∀ p ∈ queue, getCell b p.1 p.2 = color) →
      (∀ p ∈ chain, getCell b p.1 p.2 = color) →
      ∀ p ∈ (chainBfs size b color fuel queue visited chain libs).1,
        getCell b p.1 p.2 = color := by
  intro fuel
  induction fuel with
  | zero =>
    intro queue visited chain libs _ hchain p hp
    exact hchain p (by simpa [chainBfs] using hp)
  | succ n ih =>
    intro queue visited chain libs hqueue hchain p hp
    cases queue with
    | nil => exact hchain p (by simpa [chainBfs] using hp)
    | cons c rest =>
      by_cases hv : c ∈ visited
      · rw [chainBfs, if_pos hv] at hp
        exact ih _ _ _ _ (fun q hq => hqueue q (by simp [hq])) hchain p hp
      · rw [chainBfs, if_neg hv] at hp
        refine ih _ _ _ _ ?_ ?_ p hp
        · intro q hq
          rcases List.mem_append.mp hq with hq | hq
          · exact hqueue q (by simp [hq])
          · have := List.mem_filter.mp hq
            simpa using (Bool.and_eq_true _ _ |>.mp this.2).1
        · intro q hq
          rcases List.mem_append.mp hq with hq | hq
          · exact hchain q hq
          · have : q = c := by simpa using hq
            subst this
            exact hqueue q (by simp)

/-- Every cell the BFS puts into the chain is on the board, provided
the queue starts that way. -/
theorem chainBfs_chain_on_board (size : Nat) (b : BoardGrid) (color : Cell) :
    ∀ (fuel : Nat) (queue visited chain libs : List (Int × Int)),
      (∀ p ∈ queue, on_board size p.1 p.2 = true) →
      (∀ p ∈ chain, on_board size p.1 p.2 = true) →
      ∀ p ∈ (chainBfs size b color fuel queue visited chain libs).1,
        on_board size p.1 p.2 = true := by
  intro fuel
  induction fuel with
  | zero =>
    intro queue visited chain libs _ hchain p hp
    exact hchain p (by simpa [chainBfs] using hp)
  | succ n ih =>
    intro queue visited chain libs hqueue hchain p hp
    cases queue with
    | nil => exact hchain p (by simpa [chainBfs] using hp)
    | cons c rest =>
      by_cases hv : c ∈ visited
      · rw [chainBfs, if_pos hv] at hp
        exact ih _ _ _ _ (fun q hq => hqueue q (by simp [hq])) hchain p hp
      · rw [chainBfs, if_neg hv] at hp
        refine ih _ _ _ _ ?_ ?_ p hp
        · intro q hq
          rcases List.mem_append.mp hq with hq | hq
          · exact hqueue q (by simp [hq])
          · exact mem_neighbours_on_board (List.mem_filter.mp hq).1
        · intro q hq
          rcases List.mem_append.mp hq with hq | hq
          · exact hchain q hq
          · have : q = c := by simpa using hq
            subst this
            exact hqueue q (by simp)

/-- If the swept cell has an empty neighbour, the chain's liberty list
is non-empty (the BFS records it on its very first pop). -/
theorem chain_and_libertiesT_libs_ne {size : Nat} {b : BoardGrid}
    {p : Int × Int} {x y : Int}
    (hmem : (x, y) ∈ neighbours size p.1 p.2)
    (hempty : getCell b x y = EMPTY) :
    (chain_and_libertiesT size b p.1 p.2).2 ≠ [] := by
  have hfuel : bfsFuel size = 4 * size * size + 1 := rfl
  intro hnil
  have hstep :
      (chain_and_libertiesT size b p.1 p.2).2 =
        (chainBfs size b (getCell b p.1 p.2) (4 * size * size)
          ([] ++ (neighbours size p.1 p.2).filter
            (fun q => getCell b q.1 q.2 == getCell b p.1 p.2 &&
              decide (q ∉ [p]))) [p] ([] ++ [p])
          ([] ++ (neighbours size p.1 p.2).filter
            (fun q => getCell b q.1 q.2 == EMPTY))).2 := by
    rw [chain_and_libertiesT, hfuel, chainBfs]
    simp
  have hlib : (x, y) ∈ (chain_and_libertiesT size b p.1 p.2).2 := by
    rw [hstep]
    refine chainBfs_libs_mono size b _ _ _ _ _ _ (x, y) ?_
    simp only [List.nil_append, List.mem_filter]
    exact ⟨hmem, by simp [hempty]⟩
  rw [hnil] at hlib
  simp at hlib

/-! ## Capture sweep invariants -/

/-- Removing a chain of cells that all differ from `(x, y)` leaves the
cell `(x, y)` unchanged. -/
theorem remove_chain_preserve {x y : Int} :
    ∀ (chain : List (Int × Int)) (b : BoardGrid),
      (∀ p ∈ chain, p.1.toNat ≠ x.toNat ∨ p.2.toNat ≠ y.toNat) →
      getCell (remove_chain b chain) x y = getCell b x y := by
  intro chain
  induction chain with
  | nil => intro b _; rfl
  | cons p rest ih =>
    intro b hall
    have hstep : remove_chain b (p :: rest) =
        remove_chain (setCell b p.1 p.2 EMPTY) rest := rfl
    rw [hstep, ih _ (fun q hq => hall q (by simp [hq]))]
    exact getCell_setCell_ne b EMPTY (hall p (by simp))

/-- The capture sweep never changes a cell whose value differs from the
opponent colour. -/
theorem captureLoop_preserve {size : Nat} {opp : Cell} {x y : Int} {v : Cell}
    (hvne : v ≠ opp) :
    ∀ (ps : List (Int × Int)) (b : BoardGrid) (cap : Bool),
      getCell b x y = v →
      getCell (captureLoop size opp ps b cap).1 x y = v := by
  intro ps
  induction ps with
  | nil => intro b cap hb; simpa [captureLoop] using hb
  | cons p rest ih =>
    intro b cap hb
    rw [captureLoop]
    by_cases hp : getCell b p.1 p.2 == opp
    · rw [if_pos hp]
      by_cases hlib : (chain_and_libertiesT size b p.1 p.2).2.isEmpty
      · rw [if_pos hlib]
        have hpe : getCell b p.1 p.2 = opp := beq_iff_eq.mp hp
        refine ih _ _ ?_
        rw [remove_chain_preserve _ _ ?_, hb]
        intro q hq
        have hq' : q ∈ (chainBfs size b opp (bfsFuel size) [p] [] [] []).1 := by
          simpa [chain_and_libertiesT, hpe] using hq
        have hqc : getCell b q.1 q.2 = opp := by
          refine chainBfs_chain_color size b _ (bfsFuel size) [p] [] [] [] ?_
            (by simp) q hq'
          intro r hr
          have : r = p := by simpa using hr
          subst this
          exact hpe
        refine @toNat_ne_of_getCell_ne b x y q.1 q.2 ?_
        rw [hqc, hb]
        exact fun h => hvne h.symm
      · rw [if_neg hlib]; exact ih _ _ hb
    · rw [if_neg hp]; exact ih _ _ hb

/-- If every swept neighbour's chain keeps a liberty, the capture sweep
changes nothing. -/
theorem captureLoop_nochange {size : Nat} {opp : Cell} {b : BoardGrid} :
    ∀ (ps : List (Int × Int)) (cap : Bool),
      (∀ p ∈ ps, getCell b p.1 p.2 = opp →
        (chain_and_libertiesT size b p.1 p.2).2 ≠ []) →
      captureLoop size opp ps b cap = (b, cap) := by
  intro ps
  induction ps with
  | nil => intro cap _; rfl
  | cons p rest ih =>
    intro cap hall
    rw [captureLoop]
    by_cases hp : getCell b p.1 p.2 == opp
    · rw [if_pos hp]
      have hne := hall p (by simp) (beq_iff_eq.mp hp)
      rw [if_neg (by simpa [List.isEmpty_iff] using hne)]
      exact ih _ (fun q hq => hall q (by simp [hq]))
    · rw [if_neg hp]
      exact ih _ (fun q hq => hall q (by simp [hq]))

/-- A colour is never its own opponent, and `EMPTY` is nobody's
opponent. -/
theorem opponent_ne (color : Cell) :
    color ≠ opponent color ∧ EMPTY ≠ opponent color := by
  by_cases h : color == WHITE
  · have := beq_iff_eq.mp h
    subst this
    exact ⟨by decide, by decide⟩
  · constructor
    · rw [opponent, if_neg h]
      intro hc
      exact h (by simp [hc, WHITE])
    · rw [opponent, if_neg h]
      decide

/-- The board `possible_move` leaves behind is always its input board:
the simulation is reverted on the normal exits, and on the assertion
exit (colour `EMPTY`) the tentative write and the capture sweep turn
out to change nothing. -/
theorem possible_move_board_eq (g : Goban) (x y : Int) (color : Cell) :
    (possible_move g x y color).2 = g.board := by
  by_cases h1 : on_board g.size x y
  case neg => simp [possible_move, h1]
  by_cases h2 : getCell g.board x y = EMPTY
  case neg => simp [possible_move, h1, h2]
  rcases hmatch : chain_and_liberties g.size (simulateCapture g x y color).1 x y
    with _ | cl
  · -- assertion path: show the simulated grid is the input grid
    have hempty2 : getCell (simulateCapture g x y color).1 x y = EMPTY := by
      rw [chain_and_liberties] at hmatch
      by_cases hg : getCell (simulateCapture g x y color).1 x y == EMPTY
      · exact beq_iff_eq.mp hg
      · rw [if_neg hg] at hmatch; cases hmatch
    have hvne : getCell (setCell g.board x y color) x y ≠ opponent color := by
      rcases getCell_setCell_self g.board x y color with h | h <;> rw [h]
      · exact (opponent_ne color).1
      · rw [h2]; exact (opponent_ne color).2
    have hpres : getCell (simulateCapture g x y color).1 x y =
        getCell (setCell g.board x y color) x y := by
      rw [simulateCapture]
      exact captureLoop_preserve hvne _ _ _ rfl
    have hb1e : getCell (setCell g.board x y color) x y = EMPTY := by
      rw [← hpres]; exact hempty2
    have hb1 : setCell g.board x y color = g.board := by
      rcases setCell_cases g.board x y color with h | h
      · exact h
      · have hc0 : color = EMPTY := by rw [← h, hb1e]
        rw [hc0, ← h2, setCell_self]
    have hnoc : simulateCapture g x y color =
        (setCell g.board x y color, false) := by
      rw [simulateCapture]
      refine captureLoop_nochange _ _ ?_
      intro p hp hpopp
      exact chain_and_libertiesT_libs_ne (neighbours_symm h1 hp) hb1e
    simp only [possible_move, h1, h2, hmatch]
    simp [hnoc, hb1]
  · simp [possible_move, h1, h2, hmatch]

set_option maxRecDepth 10000

/-! ## Claim C1 -/

/-- Claim C1: for every board, coordinate and colour, the legality
check `possible_move(x, y, color)` leaves the board grid byte-for-byte
unchanged, on every exit path (normal returns revert the simulation,
and on the assertion exit the simulation never changed the grid). -/
theorem possible_move_restores_board (g : Goban) (x y : Int) (color : Cell) :
    (possible_move g x y color).2 = g.board :=
  possible_move_board_eq g x y color

/-! ## Claim C10 -/

/-- Claim C10: `opponent` is total over all colour values, maps `BLACK`
to `WHITE` and `WHITE` to `BLACK`, returns `WHITE` on `EMPTY`, and its
value is always a stone colour (it never fails). -/
theorem opponent_total :
    opponent BLACK = WHITE ∧ opponent WHITE = BLACK ∧
      opponent EMPTY = WHITE ∧
      ∀ c : Cell, opponent c = BLACK ∨ opponent c = WHITE := by
  refine ⟨rfl, rfl, rfl, fun c => ?_⟩
  rw [opponent]
  split
  · left; rfl
  · right; rfl

/-! ## Claim C8 -/

/-- Claim C8: serializing a game state with `game_to_dict` and reading
the dictionary back with `game_from_dict` restores the board grid, the
active colour, both pass flags, the move counter and the full snapshot
history (this holds for every game state, in particular every
reachable one). -/
theorem game_dict_roundtrip (g : GoGame) :
    (game_from_dict (game_to_dict g)).goban.board = g.goban.board ∧
    (game_from_dict (game_to_dict g)).current_color = g.current_color ∧
    (game_from_dict (game_to_dict g)).black_passed = g.black_passed ∧
    (game_from_dict (game_to_dict g)).white_passed = g.white_passed ∧
    (game_from_dict (game_to_dict g)).nbr_moves = g.nbr_moves ∧
    (game_from_dict (game_to_dict g)).goban.states = g.goban.states :=
  ⟨rfl, rfl, rfl, rfl, rfl, rfl⟩

/-! ## Well-formed board access -/

/-- On a well-formed board, an in-bounds write really changes the
targeted cell. -/
theorem getCell_setCell_inbounds {g : Goban} (hwf : WF g) {x y : Int}
    (hob : on_board g.size x y = true) (c : Cell) :
    getCell (setCell g.board x y c) x y = c := by
  have hb := hwf.1
  simp only [on_board, Bool.and_eq_true, decide_eq_true_eq] at hob
  have hx : x.toNat < g.board.length := by omega
  have hrowmem : g.board.getD x.toNat [] ∈ g.board := by
    rw [List.getD_eq_getElem _ _ hx]
    exact List.getElem_mem hx
  have hy : y.toNat < (g.board.getD x.toNat []).length := by
    rw [hwf.2 _ hrowmem]; omega
  simp only [getCell, setCell]
  rw [getD_set_self _ _ _ x.toNat, if_pos hx, getD_set_self _ _ _ y.toNat,
    if_pos hy]

/-- On a well-formed board, after placing a genuine stone colour at an
empty in-bounds cell, the simulated (post-capture) grid still shows
that stone: the capture sweep only removes opponent-coloured chains. -/
theorem sim_cell_color {g : Goban} (hwf : WF g) {x y : Int} {color : Cell}
    (hob : on_board g.size x y = true)
    (hcol : color = BLACK ∨ color = WHITE) :
    getCell (simulateCapture g x y color).1 x y = color := by
  rw [simulateCapture]
  refine captureLoop_preserve ?_ _ _ _ (getCell_setCell_inbounds hwf hob color)
  rcases hcol with h | h <;> subst h <;> decide

/-- Under the guards of `possible_move` (in bounds, empty cell) and
with the simulated cell non-empty, `possible_move` returns the
suicide/ko verdict of the simulation. -/
theorem possible_move_eval {g : Goban} {x y : Int} {color : Cell}
    (hob : on_board g.size x y = true)
    (hemp : getCell g.board x y = EMPTY)
    (hcell : getCell (simulateCapture g x y color).1 x y ≠ EMPTY) :
    (possible_move g x y color).1 =
      some (
        if (!(chain_and_libertiesT g.size (simulateCapture g x y color).1
              x y).2.isEmpty || (simulateCapture g x y color).2) &&
            decide (2 ≤ g.states.length) then
          if arrayEqual g.size (simulateCapture g x y color).1
              (g.states.getD (g.states.length - 2) []) then false
          else (!(chain_and_libertiesT g.size (simulateCapture g x y color).1
              x y).2.isEmpty || (simulateCapture g x y color).2)
        else (!(chain_and_libertiesT g.size (simulateCapture g x y color).1
            x y).2.isEmpty || (simulateCapture g x y color).2)) := by
  have hmatch : chain_and_liberties g.size (simulateCapture g x y color).1 x y =
      some (chain_and_libertiesT g.size (simulateCapture g x y color).1 x y) := by
    rw [chain_and_liberties, if_neg (by simpa using hcell)]
  simp [possible_move, hob, hemp, hmatch]

/-! ## Claim C2 -/

/-- Claim C2: on a board with at least two stored snapshots, a stone
placement on an empty in-bounds cell that passes the suicide stage is
rejected by `possible_move` exactly when the simulated grid (placement
plus captures) equals the snapshot from two plies ago
(`states[len-2]`). -/
theorem possible_move_ko_iff (g : Goban) (x y : Int) (color : Cell)
    (hwf : WF g) (hcol : color = BLACK ∨ color = WHITE)
    (hob : on_board g.size x y = true)
    (hemp : getCell g.board x y = EMPTY)
    (hlegal : ¬((chain_and_libertiesT g.size (simulateCapture g x y color).1
        x y).2 = [] ∧ (simulateCapture g x y color).2 = false))
    (hlen : 2 ≤ g.states.length) :
    ((possible_move g x y color).1 = some false ↔
      arrayEqual g.size (simulateCapture g x y color).1
        (g.states.getD (g.states.length - 2) []) = true) := by
  have hcell : getCell (simulateCapture g x y color).1 x y ≠ EMPTY := by
    rw [sim_cell_color hwf hob hcol]
    rcases hcol with h | h <;> subst h <;> decide
  rw [possible_move_eval hob hemp hcell]
  have hlegaltrue :
      (!(chain_and_libertiesT g.size (simulateCapture g x y color).1
          x y).2.isEmpty || (simulateCapture g x y color).2) = true := by
    rcases not_and_or.mp hlegal with h | h
    · simp [List.isEmpty_iff, h]
    · simp [Bool.not_eq_false] at h
      simp [h]
  rw [hlegaltrue]
  by_cases hae : arrayEqual g.size (simulateCapture g x y color).1
      (g.states.getD (g.states.length - 2) []) = true
  · simp [hae, hlen]
  · simp [hae, hlen]

/-- Witness for claim C2: on the classic single-stone ko position
`gKo`, the immediate white recapture at (1,1) is rejected (via the
theorem: the simulated grid reproduces the snapshot from two plies
ago), and the same recapture is accepted after the intervening white
move of `gKo2`. -/
theorem possible_move_ko_iff_witness :
    (possible_move gKo 1 1 WHITE).1 = some false ∧
      (possible_move gKo2 1 1 WHITE).1 = some true :=
  ⟨(possible_move_ko_iff gKo 1 1 WHITE (by decide) (by decide) (by decide)
      (by decide) (by decide) (by decide)).mpr (by decide),
    by decide⟩

/-! ## Claim C3 -/

/-- Claim C3: placing a stone on an empty in-bounds cell is judged
suicide (hence illegal) by `possible_move` exactly when, after the
capture sweep, the placed stone's chain has no liberties and no capture
occurred; with at least one liberty or at least one capture the move
passes the suicide stage, so that its verdict is decided by the ko
check alone. -/
theorem possible_move_suicide_iff (g : Goban) (x y : Int) (color : Cell)
    (hwf : WF g) (hcol : color = BLACK ∨ color = WHITE)
    (hob : on_board g.size x y = true)
    (hemp : getCell g.board x y = EMPTY) :
    ((chain_and_libertiesT g.size (simulateCapture g x y color).1 x y).2 = [] ∧
        (simulateCapture g x y color).2 = false →
      (possible_move g x y color).1 = some false) ∧
    ((chain_and_libertiesT g.size (simulateCapture g x y color).1 x y).2 ≠ [] ∨
        (simulateCapture g x y color).2 = true →
      ((possible_move g x y color).1 = some true ↔
        ¬koViolation g x y color)) := by
  have hcell : getCell (simulateCapture g x y color).1 x y ≠ EMPTY := by
    rw [sim_cell_color hwf hob hcol]
    rcases hcol with h | h <;> subst h <;> decide
  constructor
  · intro hsui
    rw [possible_move_eval hob hemp hcell]
    simp [hsui.1, hsui.2, List.isEmpty_iff]
  · intro hlive
    rw [possible_move_eval hob hemp hcell]
    have hlegaltrue :
        (!(chain_and_libertiesT g.size (simulateCapture g x y color).1
            x y).2.isEmpty || (simulateCapture g x y color).2) = true := by
      rcases hlive with h | h
      · simp [List.isEmpty_iff, h]
      · simp [h]
    rw [hlegaltrue]
    by_cases hlen : 2 ≤ g.states.length
    · by_cases hae : arrayEqual g.size (simulateCapture g x y color).1
          (g.states.getD (g.states.length - 2) []) = true
      · simp [hlen, hae, koViolation]
      · simp [hlen, hae, koViolation]
    · simp [hlen, koViolation]

/-- Witness for claim C3: on the 3×3 board `gSuicide` (White at (0,1),
(1,0), (1,2)), Black at (0,0) captures nothing and ends with no
liberty, so the theorem rejects it; Black at (2,2) has liberties and
the ko check passes, so the theorem accepts it. -/
theorem possible_move_suicide_iff_witness :
    (possible_move gSuicide 0 0 BLACK).1 = some false ∧
      (possible_move gSuicide 2 2 BLACK).1 = some true :=
  ⟨(possible_move_suicide_iff gSuicide 0 0 BLACK (by decide) (by decide)
      (by decide) (by decide)).1 (by decide),
    ((possible_move_suicide_iff gSuicide 2 2 BLACK (by decide) (by decide)
      (by decide) (by decide)).2 (by decide)).mpr (by decide)⟩

/-! ## Claim C4 -/

/-- Claim C4: `take_move` on a legal coordinate returns `(True, captured)`
(`captured` being the capture flag of the simulation), increments the
move counter, clears both pass flags and toggles the active colour; on
an illegal coordinate it returns `(False, False)` and leaves the whole
game state unchanged. -/
theorem take_move_spec (g : GoGame) (x y : Int) :
    ((possible_move g.goban x y g.current_color).1 = some true →
      (take_move g x y).1 =
          some (true, (simulateCapture g.goban x y g.current_color).2) ∧
      (take_move g x y).2.nbr_moves = g.nbr_moves + 1 ∧
      (take_move g x y).2.black_passed = false ∧
      (take_move g x y).2.white_passed = false ∧
      (g.current_color = BLACK → (take_move g x y).2.current_color = WHITE) ∧
      (g.current_color = WHITE → (take_move g x y).2.current_color = BLACK)) ∧
    ((possible_move g.goban x y g.current_color).1 = some false →
      (take_move g x y).1 = some (false, false) ∧ (take_move g x y).2 = g) := by
  obtain ⟨⟨sz, bd, st⟩, cc, bp, wp, nm, sp⟩ := g
  constructor
  · intro hacc
    have hboard := possible_move_board_eq ⟨sz, bd, st⟩ x y cc
    simp only [take_move, play_move, hboard, hacc, switch_player]
    refine ⟨trivial, trivial, trivial, trivial, ?_, ?_⟩ <;>
      intro h <;> subst h <;> rfl
  · intro hrej
    have hboard := possible_move_board_eq ⟨sz, bd, st⟩ x y cc
    simp only [take_move, play_move, hboard, hrej]
    exact ⟨trivial, trivial⟩

/-- Witness for claim C4: in a fresh 2×2 game, the legal move (0,0) is
accepted without capture, and the out-of-bounds move (5,5) is rejected
leaving the state unchanged. -/
theorem take_move_spec_witness :
    (take_move (newGame 2) 0 0).1 = some (true, false) ∧
      (take_move (newGame 2) 5 5).2 = newGame 2 := by
  constructor
  · exact ((take_move_spec (newGame 2) 0 0).1 (by decide)).1.trans (by decide)
  · exact ((take_move_spec (newGame 2) 5 5).2 (by decide)).2

/-! ## Claim C6 (corrected) -/

/-- Counterexample to claim C6 as stated: after two consecutive passes
the game is over, yet the subsequent `take_move(0, 0)` is accepted and
produces a state where `game_over` is false — the Over state is not
terminal under `take_move`. -/
theorem game_over_not_terminal :
    game_over gOver = true ∧ (take_move gOver 0 0).1 = some (true, false) ∧
      game_over (take_move gOver 0 0).2 = false := by decide

/-- Claim C6 as amended: from an Over state (both pass flags set),
`pass_move` and every rejected `take_move` stay in Over, while every
accepted `take_move` clears both pass flags and exits Over. -/
theorem game_over_transitions (g : GoGame) (x y : Int)
    (hover : game_over g = true) :
    game_over (pass_move g) = true ∧
    ((take_move g x y).1 = some (false, false) →
      game_over (take_move g x y).2 = true) ∧
    (∀ cap : Bool, (take_move g x y).1 = some (true, cap) →
      game_over (take_move g x y).2 = false) := by
  rw [game_over, Bool.and_eq_true] at hover
  refine ⟨?_, ?_, ?_⟩
  · by_cases h : g.current_color == BLACK <;>
      simp [pass_move, switch_player, game_over, h, hover.1, hover.2]
  · intro h
    rcases hr : (play_move g.goban x y g.current_color).1 with _ | ⟨_ | _, c⟩
    · simp [take_move, hr] at h
    · simp [take_move, hr, game_over, hover.1, hover.2]
    · simp [take_move, hr] at h
  · intro cap h
    rcases hr : (play_move g.goban x y g.current_color).1 with _ | ⟨_ | _, c⟩
    · simp [take_move, hr] at h
    · simp [take_move, hr] at h
    · by_cases hc : g.current_color == BLACK <;>
        simp [take_move, hr, switch_player, game_over, hc]

/-- Witness for the amended claim C6: in the finished game `gOver`,
passing again stays in Over, and the accepted move (0,0) exits Over. -/
theorem game_over_transitions_witness :
    game_over (pass_move gOver) = true ∧
      game_over (take_move gOver 0 0).2 = false := by
  have h := game_over_transitions gOver 0 0 (by decide)
  exact ⟨h.1, h.2.2 false (by decide)⟩

/-! ## Claim C9 -/

/-- An accepted `take_move` appends exactly one snapshot; a rejected or
failing one appends none. -/
theorem take_move_states_length (g : GoGame) (x y : Int) :
    (take_move g x y).2.goban.states.length =
      g.goban.states.length + (if moveAccepted g (x, y) then 1 else 0) := by
  rcases hr : (possible_move g.goban x y g.current_color).1 with _ | b
  · simp [take_move, play_move, moveAccepted, hr]
  · cases b <;>
      simp [take_move, play_move, moveAccepted, hr, switch_player]

/-- `pass_move` does not touch the board or its history. -/
theorem pass_move_goban (g : GoGame) : (pass_move g).goban = g.goban := by
  by_cases h : g.current_color == BLACK <;>
    simp [pass_move, switch_player, h]

/-- A rejected `take_move` leaves the board (grid and history)
unchanged. -/
theorem take_move_rejected_goban (g : GoGame) (x y : Int)
    (h : (take_move g x y).1 = some (false, false)) :
    (take_move g x y).2.goban = g.goban := by
  have hboard := possible_move_board_eq g.goban x y g.current_color
  rcases hr : (possible_move g.goban x y g.current_color).1 with _ | ⟨_ | _⟩
  · simp [take_move, play_move, hr] at h
  · simp [take_move, play_move, hr, hboard]
  · simp [take_move, play_move, hr] at h

/-- The run of a call sequence accumulates exactly one snapshot per
accepted placement. -/
theorem runGame_states_length :
    ∀ (acts : List GameAction) (g : GoGame),
      (runGame g acts).goban.states.length =
        g.goban.states.length + acceptedCount g acts := by
  intro acts
  induction acts with
  | nil => intro g; simp [runGame, acceptedCount]
  | cons a rest ih =>
    intro g
    cases a with
    | move x y =>
      rw [runGame, acceptedCount, ih, take_move_states_length]
      omega
    | pass =>
      rw [runGame, acceptedCount, ih, pass_move_goban]

/-- Claim C9: starting from a fresh game, the board-state history has
length exactly `1 +` the number of accepted stone placements; passes
leave the board untouched and rejected moves leave grid and history
unchanged. -/
theorem history_length_invariant :
    (∀ (size : Nat) (acts : List GameAction),
      (runGame (newGame size) acts).goban.states.length =
        1 + acceptedCount (newGame size) acts) ∧
    (∀ g : GoGame, (pass_move g).goban = g.goban) ∧
    (∀ (g : GoGame) (x y : Int), (take_move g x y).1 = some (false, false) →
      (take_move g x y).2.goban = g.goban) := by
  refine ⟨?_, pass_move_goban, take_move_rejected_goban⟩
  intro size acts
  rw [runGame_states_length]
  simp [newGame, newGoban, Nat.add_comm]

/-- Witness for claim C9: a concrete four-action run (an accepted move,
a pass, a rejected occupied-cell move, an accepted move) ends with
three snapshots, and a concrete rejected move keeps the board. -/
theorem history_length_invariant_witness :
    (runGame (newGame 2) [GameAction.move 0 0, GameAction.pass,
        GameAction.move 0 0, GameAction.move 1 1]).goban.states.length =
      1 + acceptedCount (newGame 2) [GameAction.move 0 0, GameAction.pass,
        GameAction.move 0 0, GameAction.move 1 1] ∧
    (take_move (newGame 2) 0 5).2.goban = (newGame 2).goban :=
  ⟨history_length_invariant.1 2 _,
    history_length_invariant.2.2 (newGame 2) 0 5 (by decide)⟩

/-! ## Claim C5 (corrected) -/

/-- Python's `max` agrees with the update the candidate loop performs
(`if score > best: best = score`). -/
theorem val_max_eq (a b : Val) :
    Val.max a b = if Val.lt a b then b else a := by
  rw [Val.max, Val.lt]
  cases h : Val.le b a <;> simp [h]

/-- The candidate loop of `_true_ai_choose_move` computes the maximum
of the candidate evaluations over the accepted moves. -/
theorem bestLoop_best (game : GoGame) (color : Cell) (depth : Nat) :
    ∀ (l : List (Int × Int)) (best : Val) (bm : Option (List (Int × Int))),
      (bestLoop game color depth l best bm).1 =
        (l.filter (moveAccepted game)).foldl
          (fun acc p => Val.max acc (candidateEval game color depth p)) best := by
  intro l
  induction l with
  | nil => intro best bm; simp [bestLoop]
  | cons p rest ih =>
    intro best bm
    cases hacc : moveAccepted game p with
    | false => simp [bestLoop, hacc, ih, List.filter_cons]
    | true =>
      cases hlt : Val.lt best (candidateEval game color depth p) with
      | true =>
        simp only [bestLoop, hacc, hlt, if_true, ih, List.filter_cons,
          List.foldl_cons]
        rw [val_max_eq, hlt]
        simp
      | false =>
        have hmax : Val.max best (candidateEval game color depth p) = best := by
          rw [val_max_eq, hlt]; rfl
        cases heq : (candidateEval game color depth p == best &&
            !(bm == none)) with
        | true =>
          simp only [bestLoop, hacc, hlt, heq, if_true, Bool.false_eq_true,
            if_false, ih, List.filter_cons, List.foldl_cons]
          rw [hmax]
        | false =>
          simp only [bestLoop, hacc, hlt, heq, Bool.false_eq_true, if_false,
            if_true, ih, List.filter_cons, List.foldl_cons]
          rw [hmax]

/-- Claim C5 as amended: for every game state the candidate loop's
best score is the maximum, over the legal candidate moves, of the
alpha-beta evaluation `look_ahead(after-move, D, minimizing)` run at
the **configured depth D itself** (not `D-1` as the specification
states), with the leaf evaluation at depth 0 equal to
`score[self] - score[opponent]`; Leo is configured with D = 2 and
Magnus with D = 4. -/
theorem minimax_candidate_depth :
    (∀ (game : GoGame) (color : Cell) (depth : Nat),
      (trueAiBest game color depth).1 =
        ((emptyPositions game).filter (moveAccepted game)).foldl
          (fun acc p => Val.max acc (candidateEval game color depth p))
          Val.negInf) ∧
    (∀ (color : Cell) (game : GoGame) (m : Bool) (a b : Val),
      look_ahead color 0 game m a b = Val.fin (evalScore color game)) ∧
    aiKindDepth "Leo" = 2 ∧ aiKindDepth "Magnus" = 4 := by
  refine ⟨?_, ?_, rfl, rfl⟩
  · intro game color depth
    exact bestLoop_best game color depth _ _ _
  · intro color game m a b
    rfl

/-- Counterexample to claim C5 as stated: in a fresh 2×2 game, (0, 0)
is a legal candidate for Black, and Leo's configured depth D = 2 gives
it the evaluation `look_ahead(after, 2) = 1`, whereas the evaluation
to depth D-1 = 1 prescribed by the specification is `0` — the search
runs to depth D, not D-1. -/
theorem minimax_depth_counterexample :
    moveAccepted (newGame 2) (0, 0) = true ∧
    candidateEval (newGame 2) BLACK (aiKindDepth "Leo") (0, 0) = Val.fin 1 ∧
    specCandidateEval (newGame 2) BLACK (aiKindDepth "Leo") (0, 0) =
      Val.fin 0 :=
  ⟨by decide, by decide, by decide⟩

/-! ## Claim C7: cell enumeration lemmas -/

/-- Membership in the row-major cell enumeration is exactly the
`_on_board` predicate. -/
theorem mem_allCells {size : Nat} (p : Int × Int) :
    p ∈ allCells size ↔ on_board size p.1 p.2 = true := by
  obtain ⟨px, py⟩ := p
  simp [allCells, on_board]
  constructor
  · rintro ⟨a, ha, b, hb, hx, hy⟩
    omega
  · rintro ⟨⟨⟨h1, h2⟩, h3⟩, h4⟩
    exact ⟨px.toNat, by omega, py.toNat, by omega, by omega, by omega⟩

/-- The row-major cell enumeration has no duplicates. -/
theorem allCells_nodup (size : Nat) : (allCells size).Nodup := by
  rw [allCells, List.nodup_flatMap]
  constructor
  · intro a _
    refine List.Nodup.map ?_ (List.nodup_range size)
    intro i j h
    simpa [Int.ofNat_inj] using h
  · refine (List.pairwise_lt_range size).imp ?_
    intro i j hij q hqi hqj
    simp only [List.mem_map, List.mem_range] at hqi hqj
    obtain ⟨b1, hb1, heq1⟩ := hqi
    obtain ⟨b2, hb2, heq2⟩ := hqj
    rw [← heq2] at heq1
    injection heq1 with h1 h2
    have hij2 : i = j := Int.ofNat.inj h1
    omega

/-- The row-major cell enumeration has `size * size` entries. -/
theorem allCells_length (size : Nat) : (allCells size).length = size * size := by
  rw [allCells, List.length_flatMap]
  have hmap : List.map (List.length ∘ fun x : Nat =>
      (List.range size).map (fun y => (Int.ofNat x, Int.ofNat y)))
      (List.range size) = List.replicate size size := by
    rw [List.eq_replicate_iff]
    refine ⟨by simp, ?_⟩
    intro b hb
    simp only [List.mem_map] at hb
    obtain ⟨a, _, rfl⟩ := hb
    simp
  rw [hmap, List.sum_replicate, smul_eq_mul]

/-- Partition of a cell list by the three genuine colours. -/
theorem count_partition (b : BoardGrid) :
    ∀ l : List (Int × Int),
      (∀ p ∈ l, getCell b p.1 p.2 = EMPTY ∨ getCell b p.1 p.2 = BLACK ∨
        getCell b p.1 p.2 = WHITE) →
      (l.filter (fun p => getCell b p.1 p.2 == EMPTY)).length +
        (l.filter (fun p => getCell b p.1 p.2 == BLACK)).length +
        (l.filter (fun p => getCell b p.1 p.2 == WHITE)).length =
        l.length := by
  intro l
  induction l with
  | nil => intro _; simp
  | cons p rest ih =>
    intro hall
    have hrest := ih (fun q hq => hall q (by simp [hq]))
    rcases hall p (by simp) with h | h | h <;>
      simp [List.filter_cons, h, EMPTY, BLACK, WHITE] at hrest ⊢ <;> omega

/-! ## Claim C7: territory flood-fill invariants -/

/-- The shared `visited` set only grows during the territory BFS. -/
theorem territoryBfs_visited_mono (size : Nat) (b : BoardGrid) :
    ∀ (fuel : Nat) (queue visited terr : List (Int × Int))
      (borders : List Cell),
      ∀ p ∈ visited,
        p ∈ (territoryBfs size b fuel queue visited terr borders).2.2 := by
  intro fuel
  induction fuel with
  | zero =>
    intro queue visited terr borders p hp
    simpa [territoryBfs] using hp
  | succ n ih =>
    intro queue visited terr borders p hp
    cases queue with
    | nil => simpa [territoryBfs] using hp
    | cons c rest =>
      by_cases hv : c ∈ visited
      · rw [territoryBfs, if_pos hv]
        exact ih _ _ _ _ p hp
      · rw [territoryBfs, if_neg hv]
        exact ih _ _ _ _ p (by simp [hp])

/-- A cell lands in the collected territory exactly when it was already
there or it is newly visited during this BFS. -/
theorem territoryBfs_terr_iff (size : Nat) (b : BoardGrid) :
    ∀ (fuel : Nat) (queue visited terr : List (Int × Int))
      (borders : List Cell) (p : Int × Int),
      p ∈ (territoryBfs size b fuel queue visited terr borders).1 ↔
        p ∈ terr ∨
          (p ∈ (territoryBfs size b fuel queue visited terr borders).2.2 ∧
            p ∉ visited) := by
  intro fuel
  induction fuel with
  | zero =>
    intro queue visited terr borders p
    simp only [territoryBfs]
    constructor
    · exact Or.inl
    · rintro (h | ⟨h1, h2⟩)
      · exact h
      · exact absurd h1 h2
  | succ n ih =>
    intro queue visited terr borders p
    cases queue with
    | nil =>
      simp only [territoryBfs]
      constructor
      · exact Or.inl
      · rintro (h | ⟨h1, h2⟩)
        · exact h
        · exact absurd h1 h2
    | cons c rest =>
      by_cases hv : c ∈ visited
      · rw [territoryBfs, if_pos hv]
        exact ih _ _ _ _ p
      · rw [territoryBfs, if_neg hv]
        constructor
        · intro hp
          rcases (ih _ _ _ _ p).mp hp with h | ⟨hin, hnin⟩
          · rcases List.mem_append.mp h with h | h
            · exact Or.inl h
            · have hpc : p = c := by simpa using h
              subst hpc
              refine Or.inr ⟨?_, hv⟩
              exact territoryBfs_visited_mono size b n _ _ _ _ p (by simp)
          · exact Or.inr ⟨hin, fun hx => hnin (by simp [hx])⟩
        · rintro (h | ⟨hin, hnin⟩)
          · exact (ih _ _ _ _ p).mpr (Or.inl (by simp [h]))
          · by_cases hpc : p = c
            · exact (ih _ _ _ _ p).mpr (Or.inl (by simp [hpc]))
            · refine (ih _ _ _ _ p).mpr (Or.inr ⟨hin, ?_⟩)
              simp only [List.mem_cons, not_or]
              exact ⟨hpc, hnin⟩

/-- The collected territory list stays duplicate-free. -/
theorem territoryBfs_terr_nodup (size : Nat) (b : BoardGrid) :
    ∀ (fuel : Nat) (queue visited terr : List (Int × Int))
      (borders : List Cell),
      terr.Nodup → (∀ p ∈ terr, p ∈ visited) →
      (territoryBfs size b fuel queue visited terr borders).1.Nodup := by
  intro fuel
  induction fuel with
  | zero =>
    intro queue visited terr borders hnd _
    simpa [territoryBfs] using hnd
  | succ n ih =>
    intro queue visited terr borders hnd hsub
    cases queue with
    | nil => simpa [territoryBfs] using hnd
    | cons c rest =>
      by_cases hv : c ∈ visited
      · rw [territoryBfs, if_pos hv]
        exact ih _ _ _ _ hnd hsub
      · rw [territoryBfs, if_neg hv]
        refine ih _ _ _ _ ?_ ?_
        · rw [List.nodup_append]
          refine ⟨hnd, by simp, ?_⟩
          intro a ha hac
          have : a = c := by simpa using hac
          subst this
          exact hv (hsub a ha)
        · intro p hp
          rcases List.mem_append.mp hp with h | h
          · simp [hsub p h]
          · have : p = c := by simpa using h
            simp [this]

/-- Every collected territory cell is empty and on the board, provided
the queue starts that way. -/
theorem territoryBfs_terr_prop (size : Nat) (b : BoardGrid) :
    ∀ (fuel : Nat) (queue visited terr : List (Int × Int))
      (borders : List Cell),
      (∀ p ∈ queue, getCell b p.1 p.2 = EMPTY ∧ on_board size p.1 p.2 = true) →
      (∀ p ∈ terr, getCell b p.1 p.2 = EMPTY ∧ on_board size p.1 p.2 = true) →
      ∀ p ∈ (territoryBfs size b fuel queue visited terr borders).1,
        getCell b p.1 p.2 = EMPTY ∧ on_board size p.1 p.2 = true := by
  intro fuel
  induction fuel with
  | zero =>
    intro queue visited terr borders _ hterr p hp
    exact hterr p (by simpa [territoryBfs] using hp)
  | succ n ih =>
    intro queue visited terr borders hqueue hterr p hp
    cases queue with
    | nil => exact hterr p (by simpa [territoryBfs] using hp)
    | cons c rest =>
      by_cases hv : c ∈ visited
      · rw [territoryBfs, if_pos hv] at hp
        exact ih _ _ _ _ (fun q hq => hqueue q (by simp [hq])) hterr p hp
      · rw [territoryBfs, if_neg hv] at hp
        refine ih _ _ _ _ ?_ ?_ p hp
        · intro q hq
          rcases List.mem_append.mp hq with h | h
          · exact hqueue q (by simp [h])
          · have hf := List.mem_filter.mp h
            refine ⟨?_, mem_neighbours_on_board hf.1⟩
            exact beq_iff_eq.mp (Bool.and_eq_true _ _ |>.mp hf.2).1
        · intro q hq
          rcases List.mem_append.mp hq with h | h
          · exact hterr q h
          · have : q = c := by simpa using h
            subst this
            exact hqueue q (by simp)

/-- Membership in the flattened region lists after inserting one more
region, on either side. -/
theorem mem_flatten_insert {α : Type} (tb tw : List (List α)) (d : List α)
    (p : α) :
    (p ∈ ((tb ++ [d]) ++ tw).flatten ↔ p ∈ (tb ++ tw).flatten ∨ p ∈ d) ∧
    (p ∈ (tb ++ (tw ++ [d])).flatten ↔ p ∈ (tb ++ tw).flatten ∨ p ∈ d) := by
  simp only [List.flatten_append, List.flatten_cons, List.flatten_nil,
    List.append_nil, List.mem_append]
  constructor <;> tauto

/-- Inserting a duplicate-free region, disjoint from the regions so
far, on either side keeps the flattened region list duplicate-free. -/
theorem flatten_insert_nodup {α : Type} [DecidableEq α]
    (tb tw : List (List α)) (d : List α)
    (h1 : ((tb ++ tw).flatten).Nodup) (h2 : d.Nodup)
    (h3 : ∀ p ∈ d, p ∉ (tb ++ tw).flatten) :
    (((tb ++ [d]) ++ tw).flatten).Nodup ∧
      ((tb ++ (tw ++ [d])).flatten).Nodup := by
  rw [List.flatten_append] at h1
  have hdisj : (d ++ (tb.flatten ++ tw.flatten)).Nodup := by
    rw [List.nodup_append]
    refine ⟨h2, h1, ?_⟩
    intro a ha
    have := h3 a ha
    rw [List.flatten_append] at this
    exact this
  constructor
  · have hperm : ((tb.flatten ++ d) ++ tw.flatten).Perm
        (d ++ (tb.flatten ++ tw.flatten)) := by
      have h := (@List.perm_append_comm _ tb.flatten d).append_right
        tw.flatten
      rwa [List.append_assoc d tb.flatten tw.flatten] at h
    have : ((tb.flatten ++ d) ++ tw.flatten).Nodup := hperm.symm.nodup hdisj
    simpa [List.flatten_append, List.flatten_cons] using this
  · have hdisj2 : ((tb.flatten ++ tw.flatten) ++ d).Nodup := by
      rw [List.nodup_append]
      refine ⟨h1, h2, ?_⟩
      intro a ha had
      have := h3 a had
      rw [List.flatten_append] at this
      exact this ha
    have := hdisj2
    rw [List.append_assoc] at this
    simpa [List.flatten_append, List.flatten_cons] using this

/-- The outer loop of `_calc_territories` keeps the flattened list of
assigned territory cells duplicate-free, and each such cell empty and
on the board. -/
theorem terrLoop_join (size : Nat) (b : BoardGrid) :
    ∀ (cells : List (Int × Int)) (visited : List (Int × Int))
      (tb tw : List (List (Int × Int))),
      ((tb ++ tw).flatten).Nodup →
      (∀ p ∈ (tb ++ tw).flatten, p ∈ visited) →
      (∀ p ∈ (tb ++ tw).flatten,
        getCell b p.1 p.2 = EMPTY ∧ on_board size p.1 p.2 = true) →
      (∀ p ∈ cells, on_board size p.1 p.2 = true) →
      (((terrLoop size b cells visited tb tw).1 ++
          (terrLoop size b cells visited tb tw).2).flatten).Nodup ∧
        (∀ p ∈ ((terrLoop size b cells visited tb tw).1 ++
            (terrLoop size b cells visited tb tw).2).flatten,
          getCell b p.1 p.2 = EMPTY ∧ on_board size p.1 p.2 = true) := by
  intro cells
  induction cells with
  | nil =>
    intro visited tb tw h1 h2 h3 h4
    exact ⟨h1, h3⟩
  | cons c rest ih =>
    intro visited tb tw h1 h2 h3 h4
    have h4rest : ∀ q ∈ rest, on_board size q.1 q.2 = true :=
      fun q hq => h4 q (by simp [hq])
    cases hskip : (!(getCell b c.1 c.2 == EMPTY) || decide (c ∈ visited)) with
    | true =>
      simp only [terrLoop, hskip, if_true]
      exact ih _ _ _ h1 h2 h3 h4rest
    | false =>
      have hor := Bool.or_eq_false_iff.mp hskip
      have hcEmpty : getCell b c.1 c.2 = EMPTY := by
        have h := hor.1
        rw [Bool.not_eq_false'] at h
        exact beq_iff_eq.mp h
      have hcNv : c ∉ visited := by simpa using hor.2
      have hcob : on_board size c.1 c.2 = true := h4 c (by simp)
      have hδnodup :
          (territoryBfs size b (bfsFuel size) [c] visited [] []).1.Nodup :=
        territoryBfs_terr_nodup size b _ _ _ _ _ (by simp) (by simp)
      have hδnew : ∀ p ∈ (territoryBfs size b (bfsFuel size) [c]
            visited [] []).1,
          p ∈ (territoryBfs size b (bfsFuel size) [c] visited [] []).2.2 ∧
            p ∉ visited := by
        intro p hp
        rcases (territoryBfs_terr_iff size b _ _ _ _ _ p).mp hp with h | h
        · simp at h
        · exact h
      have hδprop : ∀ p ∈ (territoryBfs size b (bfsFuel size) [c]
            visited [] []).1,
          getCell b p.1 p.2 = EMPTY ∧ on_board size p.1 p.2 = true := by
        refine territoryBfs_terr_prop size b _ _ _ _ _ ?_ (by simp)
        intro q hq
        have hqc : q = c := by simpa using hq
        subst hqc
        exact ⟨hcEmpty, hcob⟩
      have hmono : ∀ p ∈ visited,
          p ∈ (territoryBfs size b (bfsFuel size) [c] visited [] []).2.2 :=
        territoryBfs_visited_mono size b _ _ _ _ _
      have hδdisj : ∀ p ∈ (territoryBfs size b (bfsFuel size) [c]
            visited [] []).1, p ∉ (tb ++ tw).flatten :=
        fun p hp hmem => (hδnew p hp).2 (h2 p hmem)
      have hins := flatten_insert_nodup tb tw
        (territoryBfs size b (bfsFuel size) [c] visited [] []).1
        h1 hδnodup hδdisj
      have hmemB : ∀ p ∈ (tb ++ tw).flatten,
          p ∈ (territoryBfs size b (bfsFuel size) [c] visited [] []).2.2 :=
        fun p hp => hmono p (h2 p hp)
      rcases hbord : (territoryBfs size b (bfsFuel size) [c]
          visited [] []).2.1 with _ | ⟨col, _ | ⟨c2, bs⟩⟩
      · simp only [terrLoop, hskip, Bool.false_eq_true, if_false, hbord]
        exact ih _ _ _ h1 hmemB h3 h4rest
      · cases hc1 : (col == BLACK) with
        | true =>
          simp only [terrLoop, hskip, Bool.false_eq_true, if_false, hbord,
            hc1, if_true]
          refine ih _ _ _ hins.1 ?_ ?_ h4rest
          · intro p hp
            rcases ((mem_flatten_insert tb tw _ p).1).mp hp with h | h
            · exact hmemB p h
            · exact (hδnew p h).1
          · intro p hp
            rcases ((mem_flatten_insert tb tw _ p).1).mp hp with h | h
            · exact h3 p h
            · exact hδprop p h
        | false =>
          cases hc2 : (col == WHITE) with
          | true =>
            simp only [terrLoop, hskip, Bool.false_eq_true, if_false, hbord,
              hc1, hc2, if_true]
            refine ih _ _ _ hins.2 ?_ ?_ h4rest
            · intro p hp
              rcases ((mem_flatten_insert tb tw _ p).2).mp hp with h | h
              · exact hmemB p h
              · exact (hδnew p h).1
            · intro p hp
              rcases ((mem_flatten_insert tb tw _ p).2).mp hp with h | h
              · exact h3 p h
              · exact hδprop p h
          | false =>
            simp only [terrLoop, hskip, Bool.false_eq_true, if_false, hbord,
              hc1, hc2]
            exact ih _ _ _ h1 hmemB h3 h4rest
      · simp only [terrLoop, hskip, Bool.false_eq_true, if_false, hbord]
        exact ih _ _ _ h1 hmemB h3 h4rest

/-- Claim C7: on a board of genuine colours whose empty cells all lie
in owned territory regions (no neutral points), Chinese scoring counts
every cell exactly once: `score(BLACK) + score(WHITE) = size * size`. -/
theorem score_partition (g : Goban)
    (hval : ∀ p ∈ allCells g.size, getCell g.board p.1 p.2 = EMPTY ∨
      getCell g.board p.1 p.2 = BLACK ∨ getCell g.board p.1 p.2 = WHITE)
    (hcov : ∀ p ∈ allCells g.size, getCell g.board p.1 p.2 = EMPTY →
      p ∈ ((calc_territories g).1 ++ (calc_territories g).2).flatten) :
    (score g).1 + (score g).2 = g.size * g.size := by
  have hmain := terrLoop_join g.size g.board (allCells g.size) [] [] []
    (by simp) (by simp) (by simp) (fun p hp => (mem_allCells p).mp hp)
  have hct : calc_territories g =
      terrLoop g.size g.board (allCells g.size) [] [] [] := rfl
  rw [← hct] at hmain
  have hJE : ∀ p : Int × Int,
      p ∈ ((calc_territories g).1 ++ (calc_territories g).2).flatten ↔
        p ∈ (allCells g.size).filter
          (fun q => getCell g.board q.1 q.2 == EMPTY) := by
    intro p
    constructor
    · intro hp
      have h := hmain.2 p hp
      exact List.mem_filter.mpr ⟨(mem_allCells p).mpr h.2, by simp [h.1]⟩
    · intro hp
      have h := List.mem_filter.mp hp
      exact hcov p h.1 (beq_iff_eq.mp h.2)
  have hEnodup : ((allCells g.size).filter
      (fun q => getCell g.board q.1 q.2 == EMPTY)).Nodup :=
    (allCells_nodup g.size).filter _
  have hlen :
      ((calc_territories g).1 ++ (calc_territories g).2).flatten.length =
        ((allCells g.size).filter
          (fun q => getCell g.board q.1 q.2 == EMPTY)).length := by
    rw [← List.toFinset_card_of_nodup hmain.1,
      ← List.toFinset_card_of_nodup hEnodup]
    congr 1
    ext p
    simp only [List.mem_toFinset]
    exact hJE p
  have hflatlen : ((calc_territories g).1.map List.length).sum +
      ((calc_territories g).2.map List.length).sum =
      ((calc_territories g).1 ++ (calc_territories g).2).flatten.length := by
    rw [List.length_flatten, List.map_append, List.sum_append]
  have hpart := count_partition g.board (allCells g.size) hval
  have htotal := allCells_length g.size
  rw [score]
  simp only [countColor]
  omega

/-- Witness for claim C7: the 2×2 board `gScore` (one black stone,
three empty cells forming one black territory) satisfies both
hypotheses, and indeed 4 + 0 = 2 * 2. -/
theorem score_partition_witness :
    (score gScore).1 + (score gScore).2 = gScore.size * gScore.size :=
  score_partition gScore (by decide) (by decide)
